import Mathlib

/-!
Verification of the NEAR Prometheus exporter collector
(`collector/rpc_metrics.go`).

The collector's `Collect` method issues up to three RPC calls (node
status, validator set, delegator contract call) and streams metric
observations to a channel. We embed it as a pure function from the three
RPC outcomes to a trace: the list of RPC calls issued and the ordered
list of emitted observations. Go `float64` values are idealized as exact
rationals (`ℚ`); all stake strings in scope are short enough that no
rounding occurs in the properties considered.
-/

namespace NearExporter

/-- The fourteen metric identities declared by `NewNodeRpcMetrics`. -/
inductive MetricId where
  | epochBlockProduced
  | epochBlockExpected
  | epochChunksProduced
  | epochChunksExpected
  | seatPrice
  | delegatorStake
  | epochStartHeight
  | blockNumber
  | syncing
  | versionBuild
  | currentValidatorStake
  | nextValidatorStake
  | currentProposals
  | prevEpochKickout
  deriving DecidableEq, Repr

/-- One observation sent to the Prometheus channel: either a constant
gauge (`prometheus.MustNewConstMetric`) with a value and label values, or
an invalid-observation marker (`prometheus.NewInvalidMetric`) carrying the
failure cause. -/
inductive Emitted where
  | metric (id : MetricId) (value : ℚ) (labels : List String)
  | invalid (id : MetricId) (err : String)
  deriving DecidableEq, Repr

/-- The metric identity an observation is tagged with. -/
def obIdOf : Emitted → MetricId
  | .metric i _ _ => i
  | .invalid i _ => i

/-- Whether an observation is an invalid-observation marker. -/
def Emitted.isInvalidB : Emitted → Bool
  | .metric _ _ _ => false
  | .invalid _ _ => true

/-- The RPC calls `Collect` can issue via `collector.client.Get`. -/
inductive RpcCall where
  | status
  | validatorsLatest
  | queryGetAccounts
  deriving DecidableEq, Repr

/-- Fields of the status response used by `Collect`. -/
structure StatusResp where
  syncing : Bool
  latestBlockHeight : Nat
  version : String
  build : String
  deriving DecidableEq, Repr

/-- One entry of the current-validator list. -/
structure Validator where
  accountId : String
  stake : String
  numProducedBlocks : Nat
  numExpectedBlocks : Nat
  numProducedChunks : Nat
  numExpectedChunks : Nat
  deriving DecidableEq, Repr

/-- One entry of the next-validator or current-proposals list. -/
structure StakeEntry where
  accountId : String
  stake : String
  deriving DecidableEq, Repr

/-- One entry of the previous-epoch kickout list. `reason` stands for the
string rendering `fmt.Sprintf("%v", v.Reason)` of the kickout reason. -/
structure KickoutEntry where
  accountId : String
  reason : String
  deriving DecidableEq, Repr

/-- Fields of the validators response used by `Collect`. -/
structure ValidatorsResp where
  epochStartHeight : Nat
  currentValidators : List Validator
  nextValidators : List StakeEntry
  currentProposals : List StakeEntry
  prevEpochKickOut : List KickoutEntry
  deriving DecidableEq, Repr

/-- The contract-call response: `d.Result.Result`, a sequence of byte
values (each the code point of one character of the JSON payload). -/
structure QueryResp where
  result : List Nat
  deriving DecidableEq, Repr

/-- The `DelegatorAccount` record unmarshalled from the contract-call
payload. -/
structure DelegatorAccount where
  accountId : String
  unstakedBalance : String
  stakedBalance : String
  canWithdraw : Bool
  deriving DecidableEq, Repr

/-- Numeric value of a list of decimal digit characters. -/
def digitsVal (cs : List Char) : Nat :=
  cs.foldl (fun a c => a * 10 + (c.toNat - 48)) 0

/-- Modelled from the spec: Go's `strconv.ParseFloat` (the repository
calls it but its code is the Go standard library, not under `src/`),
restricted to the finite decimal syntax
`[+-] digits [. digits] [(e|E) [+-] digits]` with at least one mantissa
digit, and idealized to exact rational arithmetic. Hexadecimal floats,
digit-separating underscores, `inf`/`nan` forms, overflow and binary
rounding are outside the model; all strings in scope are plain decimal. -/
def parseFloatQ? (cs : List Char) : Option ℚ :=
  if cs = [] then none
  else
    let sgn : ℚ := if cs.head? = some '-' then -1 else 1
    let cs1 :=
      if cs.head? = some '+' ∨ cs.head? = some '-' then cs.tail else cs
    let intPart := cs1.takeWhile Char.isDigit
    let r1 := cs1.dropWhile Char.isDigit
    let dotted := r1.head? = some '.'
    let fracPart := if dotted then r1.tail.takeWhile Char.isDigit else []
    let r2 := if dotted then r1.tail.dropWhile Char.isDigit else r1
    if intPart.length + fracPart.length = 0 then none
    else
      let mant : ℚ :=
        (digitsVal (intPart ++ fracPart) : ℚ) / (10 : ℚ) ^ fracPart.length
      if r2 = [] then some (sgn * mant)
      else if r2.head? = some 'e' ∨ r2.head? = some 'E' then
        let r3 := r2.tail
        let eneg := r3.head? = some '-'
        let r4 :=
          if r3.head? = some '+' ∨ r3.head? = some '-' then r3.tail else r3
        let ed := r4.takeWhile Char.isDigit
        if ed.length = 0 ∨ r4.dropWhile Char.isDigit ≠ [] then none
        else
          let ex := digitsVal ed
          some (if eneg then sgn * mant / (10 : ℚ) ^ ex
                else sgn * mant * (10 : ℚ) ^ ex)
      else none

/-- `GetStakeFromString` from `collector/rpc_metrics.go`: strings of
length at most 19 normalize to 0; otherwise the first `len - 19`
characters are parsed as a float (parse failure yields 0, the error is
only logged) and the result is divided by `math.Pow(10, 5) = 100000`.
Go slices the string by bytes; every stake string is ASCII so slicing by
characters is equivalent. -/
def GetStakeFromString (s : String) : ℚ :=
  if s.length ≤ 19 then 0
  else
    let l := s.length - 19
    match parseFloatQ? (s.data.take l) with
    | none => 0
    | some v => v / 100000

/-- FNV-1a 32-bit hash of a byte sequence: offset basis 2166136261,
per byte XOR then multiply by the prime 16777619, modulo 2^32. This is
the algorithm of Go's `hash/fnv` `New32a`. -/
def fnv1a32Bytes (bs : List Nat) : Nat :=
  bs.foldl (fun h b => ((h ^^^ b) * 16777619) % 2 ^ 32) 2166136261

/-- The UTF-8 bytes of a string, as natural numbers. -/
def utf8Bytes (s : String) : List Nat :=
  s.toUTF8.toList.map (fun b => b.toNat)

/-- `HashString` from `collector/rpc_metrics.go`: the FNV-1a 32-bit hash
of the UTF-8 bytes of the string. -/
def HashString (s : String) : Nat :=
  fnv1a32Bytes (utf8Bytes s)

/-- One step of the seat-price loop in `Collect`: if the running value is
0 it is reseeded with this validator's stake, then lowered if the stake
is smaller. -/
def seatStep (acc : ℚ) (v : Validator) : ℚ :=
  let stake := GetStakeFromString v.stake
  let acc1 := if acc = 0 then stake else acc
  if acc1 > stake then stake else acc1

/-- The seat price `Collect` computes over the current-validator list:
the fold of `seatStep` starting from the zero value of `var seatPrice
float64`. -/
def seatPriceOf (vs : List Validator) : ℚ :=
  vs.foldl seatStep 0

/-- Modelled from the spec's words: the plain minimum of the normalized
stakes over all entries of a (nonempty) current-validator list, for
comparison with `seatPriceOf`. -/
def minOfStakes : List Validator → ℚ
  | [] => 0
  | v :: vs =>
    vs.foldl (fun a w => min a (GetStakeFromString w.stake))
      (GetStakeFromString v.stake)

/-- The three observations emitted after a successful status call:
sync state (1 if syncing else 0), latest block height, and the
version/build gauge whose value is the hash of the build string. -/
def statusEmits (st : StatusResp) : List Emitted :=
  [ .metric .syncing (if st.syncing then 1 else 0) [],
    .metric .blockNumber (st.latestBlockHeight : ℚ) [],
    .metric .versionBuild (HashString st.build : ℚ) [st.version, st.build] ]

/-- The thirteen invalid-observation markers emitted, in source order,
when the validators call fails. -/
def validatorsFailEmits (e : String) : List Emitted :=
  [ .invalid .epochBlockProduced e,
    .invalid .epochBlockExpected e,
    .invalid .epochChunksProduced e,
    .invalid .epochChunksExpected e,
    .invalid .seatPrice e,
    .invalid .epochStartHeight e,
    .invalid .blockNumber e,
    .invalid .syncing e,
    .invalid .versionBuild e,
    .invalid .currentValidatorStake e,
    .invalid .nextValidatorStake e,
    .invalid .currentProposals e,
    .invalid .prevEpochKickout e ]

/-- Observations emitted inside the current-validator loop: five gauges
for each entry whose account id equals the configured one. -/
def currentLoopEmits (accountId : String) (vs : List Validator) :
    List Emitted :=
  vs.flatMap fun v =>
    if v.accountId = accountId then
      [ .metric .currentValidatorStake (GetStakeFromString v.stake) [],
        .metric .epochBlockProduced (v.numProducedBlocks : ℚ) [],
        .metric .epochBlockExpected (v.numExpectedBlocks : ℚ) [],
        .metric .epochChunksProduced (v.numProducedChunks : ℚ) [],
        .metric .epochChunksExpected (v.numExpectedChunks : ℚ) [] ]
    else []

/-- Observations emitted by the next-validator loop. -/
def nextLoopEmits (accountId : String) (vs : List StakeEntry) :
    List Emitted :=
  vs.flatMap fun v =>
    if v.accountId = accountId then
      [.metric .nextValidatorStake (GetStakeFromString v.stake) []]
    else []

/-- Observations emitted by the current-proposals loop. -/
def proposalLoopEmits (accountId : String) (vs : List StakeEntry) :
    List Emitted :=
  vs.flatMap fun v =>
    if v.accountId = accountId then
      [.metric .currentProposals (GetStakeFromString v.stake) []]
    else []

/-- Observations emitted by the previous-epoch-kickout loop: value 0 with
the reason as label. -/
def kickoutLoopEmits (accountId : String) (vs : List KickoutEntry) :
    List Emitted :=
  vs.flatMap fun v =>
    if v.accountId = accountId then
      [.metric .prevEpochKickout 0 [v.reason]]
    else []

/-- All observations emitted after a successful validators call, in
source order: epoch start height, the current-validator loop, the seat
price (emitted after the loop), then the next-validator, proposal and
kickout loops. -/
def validatorsEmits (accountId : String) (vr : ValidatorsResp) :
    List Emitted :=
  [Emitted.metric .epochStartHeight (vr.epochStartHeight : ℚ) []]
    ++ currentLoopEmits accountId vr.currentValidators
    ++ [Emitted.metric .seatPrice (seatPriceOf vr.currentValidators) []]
    ++ nextLoopEmits accountId vr.nextValidators
    ++ proposalLoopEmits accountId vr.currentProposals
    ++ kickoutLoopEmits accountId vr.prevEpochKickOut

/-- The concatenation `resultString` of the contract-call result bytes,
each byte converted to the character with that code point (Go's
`string(n)` on an integer). -/
def resultStringOf (qr : QueryResp) : String :=
  String.mk (qr.result.map Char.ofNat)

/-- Observations emitted for the unmarshalled delegator list: one
delegator-stake gauge per record, labelled with the delegator account. -/
def delegatorEmits (res : List DelegatorAccount) : List Emitted :=
  res.flatMap fun d =>
    [.metric .delegatorStake (GetStakeFromString d.stakedBalance)
      [d.accountId]]

/-- The full trace of one `Collect` invocation: the RPC calls issued and
the observations emitted, in order. -/
structure CollectTrace where
  calls : List RpcCall
  emitted : List Emitted
  deriving DecidableEq, Repr

/-- `Collect` from `collector/rpc_metrics.go`, as a function of the
configured account id, the outcome of each of the three RPC calls, and
the JSON unmarshaller for the delegator payload (`json.Unmarshal` into
`[]DelegatorAccount`; its error is discarded and on failure the slice
stays empty, modelled by `Option.getD []`). Each `client.Get` is recorded
in `calls`; an early `return` stops both further calls and further
emissions. -/
def Collect (accountId : String)
    (statusRes : Except String StatusResp)
    (validatorsRes : Except String ValidatorsResp)
    (queryRes : Except String QueryResp)
    (unmarshal : String → Option (List DelegatorAccount)) : CollectTrace :=
  match statusRes with
  | .error e => ⟨[.status], [.invalid .versionBuild e]⟩
  | .ok st =>
    match validatorsRes with
    | .error e =>
      ⟨[.status, .validatorsLatest], statusEmits st ++ validatorsFailEmits e⟩
    | .ok vr =>
      match queryRes with
      | .error e =>
        ⟨[.status, .validatorsLatest, .queryGetAccounts],
          statusEmits st ++ validatorsEmits accountId vr
            ++ [.invalid .delegatorStake e]⟩
      | .ok qr =>
        let res := (unmarshal (resultStringOf qr)).getD []
        ⟨[.status, .validatorsLatest, .queryGetAccounts],
          statusEmits st ++ validatorsEmits accountId vr
            ++ delegatorEmits res⟩

/-- `Bool`-valued test that an observation is tagged with a given metric
identity. -/
def hasId (i : MetricId) (ob : Emitted) : Bool :=
  decide (obIdOf ob = i)

/-- `Bool`-valued test that an observation's identity lies in a given
set of identities. -/
def hasIdIn (l : List MetricId) (ob : Emitted) : Bool :=
  decide (obIdOf ob ∈ l)

/-- `Bool`-valued test that an observation is a gauge (not an invalid
marker) for the version/build identity. -/
def isVersionGauge (ob : Emitted) : Bool :=
  !ob.isInvalidB && decide (obIdOf ob = MetricId.versionBuild)

@[simp] lemma hasId_metric (i j : MetricId) (v : ℚ) (ls : List String) :
    hasId i (.metric j v ls) = decide (j = i) := rfl

@[simp] lemma hasId_invalid (i j : MetricId) (e : String) :
    hasId i (.invalid j e) = decide (j = i) := rfl

@[simp] lemma hasIdIn_metric (l : List MetricId) (j : MetricId) (v : ℚ)
    (ls : List String) : hasIdIn l (.metric j v ls) = decide (j ∈ l) := rfl

@[simp] lemma hasIdIn_invalid (l : List MetricId) (j : MetricId)
    (e : String) : hasIdIn l (.invalid j e) = decide (j ∈ l) := rfl

@[simp] lemma isVersionGauge_metric (j : MetricId) (v : ℚ)
    (ls : List String) :
    isVersionGauge (.metric j v ls) = decide (j = MetricId.versionBuild) := rfl

@[simp] lemma isVersionGauge_invalid (j : MetricId) (e : String) :
    isVersionGauge (.invalid j e) = false := rfl

@[simp] lemma isInvalidB_metric (j : MetricId) (v : ℚ) (ls : List String) :
    (Emitted.metric j v ls).isInvalidB = false := rfl

@[simp] lemma isInvalidB_invalid (j : MetricId) (e : String) :
    (Emitted.invalid j e).isInvalidB = true := rfl

lemma currentLoopEmits_eq_nil {a : String} {vs : List Validator}
    (h : ∀ v ∈ vs, v.accountId ≠ a) : currentLoopEmits a vs = [] := by
  induction vs with
  | nil => rfl
  | cons v vs ih =>
    simp only [currentLoopEmits, List.flatMap_cons]
    rw [if_neg (h v (by simp)), List.nil_append]
    exact ih fun w hw => h w (by simp [hw])

lemma nextLoopEmits_eq_nil {a : String} {vs : List StakeEntry}
    (h : ∀ v ∈ vs, v.accountId ≠ a) : nextLoopEmits a vs = [] := by
  induction vs with
  | nil => rfl
  | cons v vs ih =>
    simp only [nextLoopEmits, List.flatMap_cons]
    rw [if_neg (h v (by simp)), List.nil_append]
    exact ih fun w hw => h w (by simp [hw])

lemma proposalLoopEmits_eq_nil {a : String} {vs : List StakeEntry}
    (h : ∀ v ∈ vs, v.accountId ≠ a) : proposalLoopEmits a vs = [] := by
  induction vs with
  | nil => rfl
  | cons v vs ih =>
    simp only [proposalLoopEmits, List.flatMap_cons]
    rw [if_neg (h v (by simp)), List.nil_append]
    exact ih fun w hw => h w (by simp [hw])

lemma kickoutLoopEmits_eq_nil {a : String} {vs : List KickoutEntry}
    (h : ∀ v ∈ vs, v.accountId ≠ a) : kickoutLoopEmits a vs = [] := by
  induction vs with
  | nil => rfl
  | cons v vs ih =>
    simp only [kickoutLoopEmits, List.flatMap_cons]
    rw [if_neg (h v (by simp)), List.nil_append]
    exact ih fun w hw => h w (by simp [hw])

lemma shape_of_mem_currentLoopEmits {a : String} {vs : List Validator}
    {ob : Emitted} (h : ob ∈ currentLoopEmits a vs) :
    (obIdOf ob = MetricId.currentValidatorStake ∨
      obIdOf ob = MetricId.epochBlockProduced ∨
      obIdOf ob = MetricId.epochBlockExpected ∨
      obIdOf ob = MetricId.epochChunksProduced ∨
      obIdOf ob = MetricId.epochChunksExpected) ∧
      ob.isInvalidB = false := by
  induction vs with
  | nil => simp [currentLoopEmits] at h
  | cons v vs ih =>
    simp only [currentLoopEmits, List.flatMap_cons, List.mem_append] at h
    rcases h with h | h
    · by_cases hv : v.accountId = a
      · rw [if_pos hv] at h
        simp only [List.mem_cons, List.not_mem_nil, or_false] at h
        rcases h with rfl | rfl | rfl | rfl | rfl <;>
          simp [obIdOf, Emitted.isInvalidB]
      · rw [if_neg hv] at h
        simp at h
    · exact ih h

lemma shape_of_mem_nextLoopEmits {a : String} {vs : List StakeEntry}
    {ob : Emitted} (h : ob ∈ nextLoopEmits a vs) :
    obIdOf ob = MetricId.nextValidatorStake ∧ ob.isInvalidB = false := by
  induction vs with
  | nil => simp [nextLoopEmits] at h
  | cons v vs ih =>
    simp only [nextLoopEmits, List.flatMap_cons, List.mem_append] at h
    rcases h with h | h
    · by_cases hv : v.accountId = a
      · rw [if_pos hv] at h
        simp only [List.mem_cons, List.not_mem_nil, or_false] at h
        rcases h with rfl
        simp [obIdOf, Emitted.isInvalidB]
      · rw [if_neg hv] at h
        simp at h
    · exact ih h

lemma shape_of_mem_proposalLoopEmits {a : String} {vs : List StakeEntry}
    {ob : Emitted} (h : ob ∈ proposalLoopEmits a vs) :
    obIdOf ob = MetricId.currentProposals ∧ ob.isInvalidB = false := by
  induction vs with
  | nil => simp [proposalLoopEmits] at h
  | cons v vs ih =>
    simp only [proposalLoopEmits, List.flatMap_cons, List.mem_append] at h
    rcases h with h | h
    · by_cases hv : v.accountId = a
      · rw [if_pos hv] at h
        simp only [List.mem_cons, List.not_mem_nil, or_false] at h
        rcases h with rfl
        simp [obIdOf, Emitted.isInvalidB]
      · rw [if_neg hv] at h
        simp at h
    · exact ih h

lemma shape_of_mem_kickoutLoopEmits {a : String} {vs : List KickoutEntry}
    {ob : Emitted} (h : ob ∈ kickoutLoopEmits a vs) :
    obIdOf ob = MetricId.prevEpochKickout ∧ ob.isInvalidB = false := by
  induction vs with
  | nil => simp [kickoutLoopEmits] at h
  | cons v vs ih =>
    simp only [kickoutLoopEmits, List.flatMap_cons, List.mem_append] at h
    rcases h with h | h
    · by_cases hv : v.accountId = a
      · rw [if_pos hv] at h
        simp only [List.mem_cons, List.not_mem_nil, or_false] at h
        rcases h with rfl
        simp [obIdOf, Emitted.isInvalidB]
      · rw [if_neg hv] at h
        simp at h
    · exact ih h

lemma shape_of_mem_delegatorEmits {res : List DelegatorAccount}
    {ob : Emitted} (h : ob ∈ delegatorEmits res) :
    obIdOf ob = MetricId.delegatorStake ∧ ob.isInvalidB = false := by
  induction res with
  | nil => simp [delegatorEmits] at h
  | cons d res ih =>
    simp only [delegatorEmits, List.flatMap_cons, List.mem_append] at h
    rcases h with h | h
    · simp only [List.mem_cons, List.not_mem_nil, or_false] at h
      rcases h with rfl
      simp [obIdOf, Emitted.isInvalidB]
    · exact ih h

lemma seatStep_of_ne_zero {acc : ℚ} (h : acc ≠ 0) (v : Validator) :
    seatStep acc v = min acc (GetStakeFromString v.stake) := by
  simp only [seatStep, if_neg h]
  split_ifs with hgt
  · exact (min_eq_right hgt.le).symm
  · exact (min_eq_left (not_lt.mp hgt)).symm

lemma seatStep_zero (v : Validator) :
    seatStep 0 v = GetStakeFromString v.stake := by
  simp [seatStep]

lemma min_ne_zero {a b : ℚ} (ha : a ≠ 0) (hb : b ≠ 0) : min a b ≠ 0 := by
  rcases min_choice a b with h | h <;> rw [h] <;> assumption

lemma foldl_seatStep_eq_foldl_min {vs : List Validator} :
    ∀ {acc : ℚ}, acc ≠ 0 → (∀ v ∈ vs, GetStakeFromString v.stake ≠ 0) →
      vs.foldl seatStep acc =
        vs.foldl (fun m w => min m (GetStakeFromString w.stake)) acc := by
  induction vs with
  | nil => intro acc _ _; rfl
  | cons v vs ih =>
    intro acc hacc hnz
    simp only [List.foldl_cons]
    rw [seatStep_of_ne_zero hacc]
    exact ih (min_ne_zero hacc (hnz v (by simp)))
      (fun w hw => hnz w (by simp [hw]))

/-- When every normalized stake is nonzero, the source's reseeding fold
agrees with the plain minimum over a nonempty list. -/
lemma seatPriceOf_eq_minOfStakes {vs : List Validator} (hne : vs ≠ [])
    (hnz : ∀ v ∈ vs, GetStakeFromString v.stake ≠ 0) :
    seatPriceOf vs = minOfStakes vs := by
  cases vs with
  | nil => exact absurd rfl hne
  | cons v vs =>
    simp only [seatPriceOf, minOfStakes, List.foldl_cons, seatStep_zero]
    exact foldl_seatStep_eq_foldl_min (hnz v (by simp))
      (fun w hw => hnz w (by simp [hw]))

/-- When every normalized stake is zero the fold stays at zero. -/
lemma seatPriceOf_eq_zero {vs : List Validator}
    (h : ∀ v ∈ vs, GetStakeFromString v.stake = 0) : seatPriceOf vs = 0 := by
  induction vs with
  | nil => rfl
  | cons v vs ih =>
    have hv := h v (by simp)
    simp only [seatPriceOf, List.foldl_cons] at *
    have hstep : seatStep 0 v = 0 := by rw [seatStep_zero, hv]
    rw [hstep]
    exact ih (fun w hw => h w (by simp [hw]))

lemma shape_of_mem_validatorsEmits {a : String} {vr : ValidatorsResp}
    {ob : Emitted} (h : ob ∈ validatorsEmits a vr) :
    ob.isInvalidB = false ∧ obIdOf ob ∈
      [MetricId.epochStartHeight, MetricId.currentValidatorStake,
       MetricId.epochBlockProduced, MetricId.epochBlockExpected,
       MetricId.epochChunksProduced, MetricId.epochChunksExpected,
       MetricId.seatPrice, MetricId.nextValidatorStake,
       MetricId.currentProposals, MetricId.prevEpochKickout] := by
  simp only [validatorsEmits, List.mem_append, List.mem_cons,
    List.not_mem_nil, or_false] at h
  rcases h with ((((rfl | h) | rfl) | h) | h) | h
  · simp [obIdOf, Emitted.isInvalidB]
  · obtain ⟨hid, hinv⟩ := shape_of_mem_currentLoopEmits h
    refine ⟨hinv, ?_⟩
    rcases hid with h | h | h | h | h <;> simp [h]
  · simp [obIdOf, Emitted.isInvalidB]
  · obtain ⟨hid, hinv⟩ := shape_of_mem_nextLoopEmits h
    exact ⟨hinv, by simp [hid]⟩
  · obtain ⟨hid, hinv⟩ := shape_of_mem_proposalLoopEmits h
    exact ⟨hinv, by simp [hid]⟩
  · obtain ⟨hid, hinv⟩ := shape_of_mem_kickoutLoopEmits h
    exact ⟨hinv, by simp [hid]⟩

lemma filter_seat_validatorsEmits (a : String) (vr : ValidatorsResp) :
    (validatorsEmits a vr).filter (hasId MetricId.seatPrice) =
      [.metric .seatPrice (seatPriceOf vr.currentValidators) []] := by
  have hc : (currentLoopEmits a vr.currentValidators).filter
      (hasId MetricId.seatPrice) = [] :=
    List.filter_eq_nil_iff.mpr fun ob hob => by
      rcases (shape_of_mem_currentLoopEmits hob).1 with h | h | h | h | h <;>
        simp [hasId, h]
  have hn : (nextLoopEmits a vr.nextValidators).filter
      (hasId MetricId.seatPrice) = [] :=
    List.filter_eq_nil_iff.mpr fun ob hob => by
      simp [hasId, (shape_of_mem_nextLoopEmits hob).1]
  have hp : (proposalLoopEmits a vr.currentProposals).filter
      (hasId MetricId.seatPrice) = [] :=
    List.filter_eq_nil_iff.mpr fun ob hob => by
      simp [hasId, (shape_of_mem_proposalLoopEmits hob).1]
  have hk : (kickoutLoopEmits a vr.prevEpochKickOut).filter
      (hasId MetricId.seatPrice) = [] :=
    List.filter_eq_nil_iff.mpr fun ob hob => by
      simp [hasId, (shape_of_mem_kickoutLoopEmits hob).1]
  simp [validatorsEmits, List.filter_append, hc, hn, hp, hk, List.filter,
    hasId, obIdOf]

lemma fnv1a32Bytes_lt {bs : List Nat} : fnv1a32Bytes bs < 2 ^ 32 := by
  suffices h : ∀ h0 : Nat, h0 < 2 ^ 32 →
      List.foldl (fun h b => ((h ^^^ b) * 16777619) % 2 ^ 32) h0 bs < 2 ^ 32 by
    exact h _ (by norm_num)
  induction bs with
  | nil => intro h0 hh; simpa using hh
  | cons b bs ih =>
    intro h0 hh
    simp only [List.foldl_cons]
    exact ih _ (Nat.mod_lt _ (by positivity))

lemma filter_seat_collect (a : String) (st : StatusResp)
    (vr : ValidatorsResp) (q : Except String QueryResp)
    (u : String → Option (List DelegatorAccount)) :
    (Collect a (.ok st) (.ok vr) q u).emitted.filter
        (hasId MetricId.seatPrice) =
      [.metric .seatPrice (seatPriceOf vr.currentValidators) []] := by
  have hs : (statusEmits st).filter (hasId MetricId.seatPrice) = [] := by
    simp +decide [statusEmits, List.filter]
  have hd : ∀ res, (delegatorEmits res).filter (hasId MetricId.seatPrice) = [] :=
    fun res => List.filter_eq_nil_iff.mpr fun ob hob => by
      simp [hasId, (shape_of_mem_delegatorEmits hob).1]
  cases q with
  | error e =>
    show (statusEmits st ++ validatorsEmits a vr
        ++ [Emitted.invalid MetricId.delegatorStake e]).filter
          (hasId MetricId.seatPrice) = _
    rw [List.filter_append, List.filter_append, hs,
      filter_seat_validatorsEmits]
    simp +decide [List.filter]
  | ok qr =>
    show (statusEmits st ++ validatorsEmits a vr
        ++ delegatorEmits ((u (resultStringOf qr)).getD [])).filter
          (hasId MetricId.seatPrice) = _
    rw [List.filter_append, List.filter_append, hs,
      filter_seat_validatorsEmits, hd]
    simp

/-- C4: if the status query fails, `Collect` issues no further RPC call
and emits exactly one invalid-observation marker, tagged with the
build-version identity and carrying the failure cause, and nothing else;
no error escapes (the result is a total value). -/
theorem status_failure_single_invalid (a e : String)
    (v : Except String ValidatorsResp) (q : Except String QueryResp)
    (u : String → Option (List DelegatorAccount)) :
    Collect a (.error e) v q u =
      ⟨[RpcCall.status], [Emitted.invalid MetricId.versionBuild e]⟩ := rfl

/-- C2: if the status query succeeds and the validator-set query fails,
`Collect` emits the sync-state, block-height and version/build
observations, then exactly the thirteen invalid-observation markers of
`validatorsFailEmits` (thirteen markers with pairwise-distinct metric
identities, each an invalid marker carrying the failure cause), and
returns without ever issuing the delegator contract-call query. -/
theorem validators_failure_emits_thirteen_invalids (a e : String)
    (st : StatusResp) (q : Except String QueryResp)
    (u : String → Option (List DelegatorAccount)) :
    (Collect a (.ok st) (.error e) q u).emitted =
      [ .metric .syncing (if st.syncing then 1 else 0) [],
        .metric .blockNumber (st.latestBlockHeight : ℚ) [],
        .metric .versionBuild (HashString st.build : ℚ)
          [st.version, st.build] ] ++ validatorsFailEmits e ∧
    (validatorsFailEmits e).length = 13 ∧
    ((validatorsFailEmits e).map obIdOf).Nodup ∧
    (∀ ob ∈ validatorsFailEmits e, ob.isInvalidB = true ∧
      ∃ i, ob = Emitted.invalid i e) ∧
    RpcCall.queryGetAccounts ∉ (Collect a (.ok st) (.error e) q u).calls := by
  refine ⟨rfl, rfl, ?_, ?_, ?_⟩
  · simp only [validatorsFailEmits, List.map_cons, List.map_nil, obIdOf]
    decide
  · intro ob hob
    simp only [validatorsFailEmits, List.mem_cons, List.not_mem_nil,
      or_false] at hob
    rcases hob with rfl | rfl | rfl | rfl | rfl | rfl | rfl | rfl | rfl |
      rfl | rfl | rfl | rfl <;> exact ⟨rfl, _, rfl⟩
  · simp [Collect]

/-- C9: if the status and validator-set queries succeed and the
contract-call query fails, `Collect` emits exactly one invalid marker,
for the delegator-stake identity, after the unchanged step-1 and step-2
observations; the second conjunct shows those earlier observations are
exactly what a fully successful scrape would also emit first (the scrape
is not transactional). -/
theorem query_failure_single_invalid_keeps_previous (a e : String)
    (st : StatusResp) (vr : ValidatorsResp)
    (u : String → Option (List DelegatorAccount)) :
    Collect a (.ok st) (.ok vr) (.error e) u =
      ⟨[RpcCall.status, RpcCall.validatorsLatest, RpcCall.queryGetAccounts],
        statusEmits st ++ validatorsEmits a vr
          ++ [Emitted.invalid MetricId.delegatorStake e]⟩ ∧
    ∀ qr : QueryResp,
      (Collect a (.ok st) (.ok vr) (.ok qr) u).emitted =
        statusEmits st ++ validatorsEmits a vr
          ++ delegatorEmits ((u (resultStringOf qr)).getD []) :=
  ⟨rfl, fun _ => rfl⟩

/-- C5: whenever the status query succeeds, the one version/build gauge
`Collect` emits carries as numeric value the FNV-1a 32-bit hash of the
UTF-8 bytes of the build string (with the version and build strings as
labels); `HashString` is a pure function, so two evaluations on the same
input yield the same value, and that value is a 32-bit quantity. -/
theorem version_build_hash_emitted (a : String) (st : StatusResp)
    (v : Except String ValidatorsResp) (q : Except String QueryResp)
    (u : String → Option (List DelegatorAccount)) :
    (Collect a (.ok st) v q u).emitted.filter isVersionGauge =
      [.metric .versionBuild (fnv1a32Bytes (utf8Bytes st.build) : ℚ)
        [st.version, st.build]] ∧
    (∀ s : String, HashString s = HashString s) ∧
    (∀ s : String, HashString s < 2 ^ 32) := by
  refine ⟨?_, fun _ => rfl, fun _ => fnv1a32Bytes_lt⟩
  have hs : (statusEmits st).filter isVersionGauge =
      [.metric .versionBuild (fnv1a32Bytes (utf8Bytes st.build) : ℚ)
        [st.version, st.build]] := by
    simp +decide [statusEmits, List.filter, HashString]
  have hv : ∀ vr : ValidatorsResp,
      (validatorsEmits a vr).filter isVersionGauge = [] := fun vr =>
    List.filter_eq_nil_iff.mpr fun ob hob => by
      obtain ⟨hinv, hid⟩ := shape_of_mem_validatorsEmits hob
      simp only [List.mem_cons, List.not_mem_nil, or_false] at hid
      rcases hid with h | h | h | h | h | h | h | h | h | h <;>
        simp [isVersionGauge, h, hinv]
  have hd : ∀ res, (delegatorEmits res).filter isVersionGauge = [] :=
    fun res => List.filter_eq_nil_iff.mpr fun ob hob => by
      obtain ⟨hid, hinv⟩ := shape_of_mem_delegatorEmits hob
      simp [isVersionGauge, hid, hinv]
  cases v with
  | error e =>
    show (statusEmits st ++ validatorsFailEmits e).filter isVersionGauge = _
    rw [List.filter_append, hs]
    have hf : (validatorsFailEmits e).filter isVersionGauge = [] := by
      simp [validatorsFailEmits, List.filter]
    rw [hf, List.append_nil]
  | ok vr =>
    cases q with
    | error e =>
      show (statusEmits st ++ validatorsEmits a vr
          ++ [Emitted.invalid MetricId.delegatorStake e]).filter
            isVersionGauge = _
      rw [List.filter_append, List.filter_append, hs, hv vr]
      simp [List.filter]
    | ok qr =>
      show (statusEmits st ++ validatorsEmits a vr
          ++ delegatorEmits ((u (resultStringOf qr)).getD [])).filter
            isVersionGauge = _
      rw [List.filter_append, List.filter_append, hs, hv vr, hd]
      simp

/-- C10: whenever the validator-set query succeeds, `Collect` emits
exactly one seat-price observation, whose value is the loop's fold over
the current-validator list; when that list is empty or every entry's
normalized stake is zero, the emitted value is 0. -/
theorem seat_price_always_emitted_once (a : String) (st : StatusResp)
    (vr : ValidatorsResp) (q : Except String QueryResp)
    (u : String → Option (List DelegatorAccount)) :
    (Collect a (.ok st) (.ok vr) q u).emitted.filter
        (hasId MetricId.seatPrice) =
      [.metric .seatPrice (seatPriceOf vr.currentValidators) []] ∧
    ((vr.currentValidators = [] ∨
        ∀ v ∈ vr.currentValidators, GetStakeFromString v.stake = 0) →
      seatPriceOf vr.currentValidators = 0) := by
  refine ⟨filter_seat_collect a st vr q u, ?_⟩
  rintro (h | h)
  · rw [h]; rfl
  · exact seatPriceOf_eq_zero h

/-- C10 witness: on a successful validator-set query with an empty
current-validator list, exactly one seat-price observation is emitted
and its value is 0. -/
theorem seat_price_always_emitted_once_witness :
    (Collect "x.near" (.ok ⟨false, 7, "1.40.0", "nightly"⟩)
        (.ok ⟨3, [], [], [], []⟩) (.error "rpc down")
        (fun _ => none)).emitted.filter (hasId MetricId.seatPrice) =
      [.metric .seatPrice 0 []] ∧
    seatPriceOf ([] : List Validator) = 0 := by
  have h := seat_price_always_emitted_once "x.near" ⟨false, 7, "1.40.0", "nightly"⟩
    ⟨3, [], [], [], []⟩ (.error "rpc down") (fun _ => none)
  exact ⟨h.1, h.2 (Or.inl rfl)⟩

/-- C1 counterexample: the seat price `Collect` emits is not in general
the minimum of the normalized stakes over all current validators. With
stakes `"0"` (normalizes to 0) and `"20000000000000000000000000"`
(normalizes to 20), the zero running value is reseeded by the second
entry, so 20 is emitted while the plain minimum is 0. -/
theorem seat_price_not_plain_min :
    (Collect "x.near" (.ok ⟨false, 1, "1.40.0", "nightly"⟩)
        (.ok ⟨5, [⟨"zero.near", "0", 0, 0, 0, 0⟩,
          ⟨"big.near", "20000000000000000000000000", 0, 0, 0, 0⟩],
          [], [], []⟩)
        (.error "rpc down") (fun _ => none)).emitted.filter
        (hasId MetricId.seatPrice) =
      [.metric .seatPrice 20 []] ∧
    minOfStakes
        [⟨"zero.near", "0", 0, 0, 0, 0⟩,
         ⟨"big.near", "20000000000000000000000000", 0, 0, 0, 0⟩] = 0 ∧
    (20 : ℚ) ≠ 0 := by
  have hl : "20000000000000000000000000".length = 26 := by decide
  have hd : digitsVal ['2', '0', '0', '0', '0', '0', '0'] = 2000000 := by
    decide
  have h20 : seatPriceOf [⟨"zero.near", "0", 0, 0, 0, 0⟩,
      ⟨"big.near", "20000000000000000000000000", 0, 0, 0, 0⟩] = 20 := by
    norm_num +decide [seatPriceOf, seatStep, GetStakeFromString,
      parseFloatQ?, hl, hd]
  refine ⟨?_, ?_, by norm_num⟩
  · rw [filter_seat_collect]
    simp [h20]
  · norm_num +decide [minOfStakes, GetStakeFromString, parseFloatQ?, hl, hd]

/-- C1 (amended): for every successful validator-set query whose
current-validator list is nonempty and all of whose entries have nonzero
normalized stake, the emitted seat-price value equals the minimum of the
normalized stakes over all entries. (The unamended claim fails when an
entry normalizes to zero: the loop's running value is then reseeded.) -/
theorem seat_price_eq_min_of_nonzero_stakes (a : String) (st : StatusResp)
    (vr : ValidatorsResp) (q : Except String QueryResp)
    (u : String → Option (List DelegatorAccount))
    (hne : vr.currentValidators ≠ [])
    (hnz : ∀ v ∈ vr.currentValidators, GetStakeFromString v.stake ≠ 0) :
    (Collect a (.ok st) (.ok vr) q u).emitted.filter
        (hasId MetricId.seatPrice) =
      [.metric .seatPrice (minOfStakes vr.currentValidators) []] := by
  rw [← seatPriceOf_eq_minOfStakes hne hnz]
  exact filter_seat_collect a st vr q u

/-- C1 witness: with the two nonzero stakes 30 and 20 the emitted seat
price is the plain minimum of the normalized stakes. -/
theorem seat_price_eq_min_witness :
    (Collect "x.near" (.ok ⟨false, 1, "1.40.0", "nightly"⟩)
        (.ok ⟨5, [⟨"a.near", "30000000000000000000000000", 0, 0, 0, 0⟩,
          ⟨"b.near", "20000000000000000000000000", 0, 0, 0, 0⟩],
          [], [], []⟩)
        (.ok ⟨[]⟩) (fun _ => none)).emitted.filter
        (hasId MetricId.seatPrice) =
      [.metric .seatPrice (minOfStakes
        [⟨"a.near", "30000000000000000000000000", 0, 0, 0, 0⟩,
         ⟨"b.near", "20000000000000000000000000", 0, 0, 0, 0⟩]) []] := by
  have hl3 : "30000000000000000000000000".length = 26 := by decide
  have hd3 : digitsVal ['3', '0', '0', '0', '0', '0', '0'] = 3000000 := by
    decide
  have hl2 : "20000000000000000000000000".length = 26 := by decide
  have hd2 : digitsVal ['2', '0', '0', '0', '0', '0', '0'] = 2000000 := by
    decide
  refine seat_price_eq_min_of_nonzero_stakes _ _ _ _ _ (by decide) ?_
  intro v hv
  simp only [List.mem_cons, List.not_mem_nil, or_false] at hv
  rcases hv with rfl | rfl
  · norm_num +decide [GetStakeFromString, parseFloatQ?, hl3, hd3]
  · norm_num +decide [GetStakeFromString, parseFloatQ?, hl2, hd2]

/-- C3: strings of length at most 19 normalize to 0; for longer strings
whose leading `length - 19` characters parse as a float, the result is
that parse divided by 100000; the 21-digit string
`"123456789012345678901"` normalizes to `12 / 100000 = 0.00012`. -/
theorem get_stake_normalization (s : String) (v : ℚ) :
    (s.length ≤ 19 → GetStakeFromString s = 0) ∧
    (19 < s.length →
      parseFloatQ? (s.data.take (s.length - 19)) = some v →
      GetStakeFromString s = v / 100000) ∧
    GetStakeFromString "123456789012345678901" = 12 / 100000 := by
  refine ⟨fun h => by simp [GetStakeFromString, h], fun hlen hp => ?_, ?_⟩
  · simp only [GetStakeFromString]
    rw [if_neg (by omega), hp]
  · have hl : "123456789012345678901".length = 21 := by decide
    have hd : digitsVal ['1', '2'] = 12 := by decide
    norm_num +decide [GetStakeFromString, parseFloatQ?, hl, hd]

/-- C3 witness: the short string `"123"` normalizes to 0, and the
21-digit example normalizes to `12 / 100000`. -/
theorem get_stake_normalization_witness :
    GetStakeFromString "123" = 0 ∧
    GetStakeFromString "123456789012345678901" = 12 / 100000 := by
  refine ⟨(get_stake_normalization "123" 0).1 (by decide),
    (get_stake_normalization "123456789012345678901" 12).2.1
      (by decide) ?_⟩
  have hl : "123456789012345678901".length = 21 := by decide
  have hd : digitsVal ['1', '2'] = 12 := by decide
  norm_num +decide [parseFloatQ?, hl, hd]

/-- C7: whenever the leading `length - 19` characters of the input do
not parse as a float, `GetStakeFromString` returns 0; the helper is a
total function into `ℚ`, so no normalization failure can escape
`Collect`. -/
theorem stake_parse_failure_returns_zero (s : String)
    (h : parseFloatQ? (s.data.take (s.length - 19)) = none) :
    GetStakeFromString s = 0 := by
  by_cases hl : s.length ≤ 19
  · simp [GetStakeFromString, hl]
  · simp only [GetStakeFromString]
    rw [if_neg hl, h]

/-- C7 witness: a 21-character non-numeric string normalizes to 0. -/
theorem stake_parse_failure_returns_zero_witness :
    GetStakeFromString "ababababababababababa" = 0 :=
  stake_parse_failure_returns_zero "ababababababababababa" (by decide)

/-- The metric identities whose observations are derived from matching
the configured account id against the validators-response lists. -/
def accountScopedIds : List MetricId :=
  [MetricId.currentValidatorStake, MetricId.epochBlockProduced,
   MetricId.epochBlockExpected, MetricId.epochChunksProduced,
   MetricId.epochChunksExpected, MetricId.nextValidatorStake,
   MetricId.currentProposals, MetricId.prevEpochKickout]

/-- C6: if all three queries succeed and the configured account id
matches no entry of the current-validator, next-validator,
current-proposals or previous-epoch-kickout lists, no observation at
all — neither a gauge nor an invalid marker — is emitted for any of the
match-derived identities. -/
theorem no_match_no_account_observations (a : String) (st : StatusResp)
    (vr : ValidatorsResp) (qr : QueryResp)
    (u : String → Option (List DelegatorAccount))
    (h1 : ∀ v ∈ vr.currentValidators, v.accountId ≠ a)
    (h2 : ∀ v ∈ vr.nextValidators, v.accountId ≠ a)
    (h3 : ∀ v ∈ vr.currentProposals, v.accountId ≠ a)
    (h4 : ∀ v ∈ vr.prevEpochKickOut, v.accountId ≠ a) :
    (Collect a (.ok st) (.ok vr) (.ok qr) u).emitted.filter
      (hasIdIn accountScopedIds) = [] := by
  have hval : validatorsEmits a vr =
      [Emitted.metric .epochStartHeight (vr.epochStartHeight : ℚ) [],
       Emitted.metric .seatPrice (seatPriceOf vr.currentValidators) []] := by
    simp [validatorsEmits, currentLoopEmits_eq_nil h1,
      nextLoopEmits_eq_nil h2, proposalLoopEmits_eq_nil h3,
      kickoutLoopEmits_eq_nil h4]
  have hd : (delegatorEmits ((u (resultStringOf qr)).getD [])).filter
      (hasIdIn accountScopedIds) = [] :=
    List.filter_eq_nil_iff.mpr fun ob hob => by
      simp +decide [hasIdIn, (shape_of_mem_delegatorEmits hob).1,
        accountScopedIds]
  show (statusEmits st ++ validatorsEmits a vr
      ++ delegatorEmits ((u (resultStringOf qr)).getD [])).filter
        (hasIdIn accountScopedIds) = []
  rw [List.filter_append, List.filter_append, hval, hd]
  simp +decide [statusEmits, List.filter, accountScopedIds]

/-- C6 witness: with the account `"x.near"` absent from all four lists,
no match-derived observation is emitted. -/
theorem no_match_no_account_observations_witness :
    (Collect "x.near" (.ok ⟨true, 2, "1.40.0", "nightly"⟩)
        (.ok ⟨9, [⟨"v.near", "30000000000000000000000000", 1, 2, 3, 4⟩],
          [⟨"n.near", "1"⟩], [⟨"p.near", "2"⟩],
          [⟨"k.near", "low uptime"⟩]⟩)
        (.ok ⟨[91, 93]⟩) (fun _ => none)).emitted.filter
      (hasIdIn accountScopedIds) = [] :=
  no_match_no_account_observations _ _ _ _ _ (by decide) (by decide)
    (by decide) (by decide)

/-- C8: if the unmarshalling of the concatenated contract-call bytes
fails, the scrape's output is exactly the status and validators
observations: zero delegator-stake observations, no invalid marker
anywhere, and no error propagated (the trace is a total value). -/
theorem malformed_delegator_json_silent (a : String) (st : StatusResp)
    (vr : ValidatorsResp) (qr : QueryResp)
    (u : String → Option (List DelegatorAccount))
    (h : u (resultStringOf qr) = none) :
    (Collect a (.ok st) (.ok vr) (.ok qr) u).emitted =
      statusEmits st ++ validatorsEmits a vr ∧
    (Collect a (.ok st) (.ok vr) (.ok qr) u).emitted.filter
      (hasId MetricId.delegatorStake) = [] ∧
    (Collect a (.ok st) (.ok vr) (.ok qr) u).emitted.filter
      Emitted.isInvalidB = [] := by
  have he : (Collect a (.ok st) (.ok vr) (.ok qr) u).emitted =
      statusEmits st ++ validatorsEmits a vr := by
    show statusEmits st ++ validatorsEmits a vr
        ++ delegatorEmits ((u (resultStringOf qr)).getD []) = _
    rw [h]
    simp [delegatorEmits]
  have hsD : (statusEmits st).filter (hasId MetricId.delegatorStake) = [] := by
    simp +decide [statusEmits, List.filter]
  have hvD : (validatorsEmits a vr).filter
      (hasId MetricId.delegatorStake) = [] :=
    List.filter_eq_nil_iff.mpr fun ob hob => by
      obtain ⟨hinv, hid⟩ := shape_of_mem_validatorsEmits hob
      simp only [List.mem_cons, List.not_mem_nil, or_false] at hid
      rcases hid with h' | h' | h' | h' | h' | h' | h' | h' | h' | h' <;>
        simp [hasId, h']
  have hsI : (statusEmits st).filter Emitted.isInvalidB = [] := by
    simp [statusEmits, List.filter]
  have hvI : (validatorsEmits a vr).filter Emitted.isInvalidB = [] :=
    List.filter_eq_nil_iff.mpr fun ob hob => by
      simp [(shape_of_mem_validatorsEmits hob).1]
  refine ⟨he, ?_, ?_⟩
  · rw [he, List.filter_append, hsD, hvD]
    rfl
  · rw [he, List.filter_append, hsI, hvI]
    rfl

/-- C8 witness: with an unmarshaller that rejects the payload, the
scrape emits only the status and validators observations. -/
theorem malformed_delegator_json_silent_witness :
    (Collect "x.near" (.ok ⟨false, 11, "1.40.0", "nightly"⟩)
        (.ok ⟨4, [], [], [], []⟩) (.ok ⟨[110, 111]⟩)
        (fun _ => none)).emitted =
      statusEmits ⟨false, 11, "1.40.0", "nightly"⟩
        ++ validatorsEmits "x.near" ⟨4, [], [], [], []⟩ ∧
    (Collect "x.near" (.ok ⟨false, 11, "1.40.0", "nightly"⟩)
        (.ok ⟨4, [], [], [], []⟩) (.ok ⟨[110, 111]⟩)
        (fun _ => none)).emitted.filter
      (hasId MetricId.delegatorStake) = [] ∧
    (Collect "x.near" (.ok ⟨false, 11, "1.40.0", "nightly"⟩)
        (.ok ⟨4, [], [], [], []⟩) (.ok ⟨[110, 111]⟩)
        (fun _ => none)).emitted.filter Emitted.isInvalidB = [] :=
  malformed_delegator_json_silent _ _ _ _ _ rfl

/-- C2 witness: at a concrete failing validator-set query there are
thirteen invalid markers, the seat-price marker among them carries the
cause, and the delegator query is never issued. -/
theorem validators_failure_witness :
    (validatorsFailEmits "boom").length = 13 ∧
    (Emitted.invalid MetricId.seatPrice "boom").isInvalidB = true ∧
    RpcCall.queryGetAccounts ∉
      (Collect "x.near" (.ok ⟨false, 3, "1.40.0", "nightly"⟩)
        (.error "boom") (.error "later") (fun _ => none)).calls := by
  have h := validators_failure_emits_thirteen_invalids "x.near" "boom"
    ⟨false, 3, "1.40.0", "nightly"⟩ (.error "later") (fun _ => none)
  exact ⟨h.2.1, (h.2.2.2.1 _ (by decide)).1, h.2.2.2.2⟩

/-- C5 witness: at a concrete status response the version/build gauge
carries the FNV-1a hash of the build string, which is a stable 32-bit
value. -/
theorem version_build_hash_witness :
    (Collect "x.near" (.ok ⟨false, 3, "1.40.0", "nightly"⟩)
        (.error "boom") (.error "later") (fun _ => none)).emitted.filter
        isVersionGauge =
      [.metric .versionBuild (fnv1a32Bytes (utf8Bytes "nightly") : ℚ)
        ["1.40.0", "nightly"]] ∧
    HashString "nightly" = HashString "nightly" ∧
    HashString "nightly" < 2 ^ 32 := by
  have h := version_build_hash_emitted "x.near"
    ⟨false, 3, "1.40.0", "nightly"⟩ (.error "boom") (.error "later")
    (fun _ => none)
  exact ⟨h.1, h.2.1 "nightly", h.2.2 "nightly"⟩

/-- C9 witness: at a concrete failing contract-call query the trace ends
in the single delegator-stake invalid marker, after the same prefix a
fully successful scrape would emit. -/
theorem query_failure_witness :
    Collect "x.near" (.ok ⟨false, 3, "1.40.0", "nightly"⟩)
        (.ok ⟨4, [], [], [], []⟩) (.error "offline") (fun _ => none) =
      ⟨[RpcCall.status, RpcCall.validatorsLatest, RpcCall.queryGetAccounts],
        statusEmits ⟨false, 3, "1.40.0", "nightly"⟩
          ++ validatorsEmits "x.near" ⟨4, [], [], [], []⟩
          ++ [Emitted.invalid MetricId.delegatorStake "offline"]⟩ ∧
    (Collect "x.near" (.ok ⟨false, 3, "1.40.0", "nightly"⟩)
        (.ok ⟨4, [], [], [], []⟩) (.ok ⟨[]⟩) (fun _ => none)).emitted =
      statusEmits ⟨false, 3, "1.40.0", "nightly"⟩
        ++ validatorsEmits "x.near" ⟨4, [], [], [], []⟩
        ++ delegatorEmits [] := by
  have h := query_failure_single_invalid_keeps_previous "x.near" "offline"
    ⟨false, 3, "1.40.0", "nightly"⟩ ⟨4, [], [], [], []⟩ (fun _ => none)
  exact ⟨h.1, h.2 ⟨[]⟩⟩

end NearExporter
